import Mathlib

/-!
Verification of the webml compiler front-end (parser, alpha-rename pass,
let-flattening pass) against its natural-language specification.

The development is a shallow embedding of the Rust sources:
  * `src/hir/flat_let.rs`  → namespace `Hir`
  * `src/ast/rename.rs`, `src/ast/mod.rs` → namespace `Ast`
  * `src/parser.rs`        → namespace `Parse`
Rust `u64` ids are modelled as `Nat` (only equality with 0 and mutual
distinctness of ids matter to the claims; the allocator is strictly
increasing so no wrap-around occurs for any input a shallow embedding can
represent).
-/

/-- Deferred type slot (`TyDefer` in the source): a shared mutable cell that
is empty at parse time and irrelevant to (never read nor written by) the
rename and let-flattening passes.  It is modelled by an opaque slot
identifier, which lets theorems state that a pass keeps a node's slot. -/
abbrev TyDefer := Nat

namespace Hir

/-- HIR symbols: `src/hir/flat_let.rs` constructs `Symbol(name)`, a
single-field name wrapper (the HIR symbol type itself is declared in the
missing `hir/mod.rs`; only the name field is ever used by this pass). -/
structure Symbol where
  name : String
deriving DecidableEq, Repr

/-- HIR literal values.  The pass never inspects them; integers suffice for
the claims. -/
abbrev Literal := Int

/-- A binding (`Val` in the source), polymorphic in the expression type so
that it can be nested inside `Expr`.  The source field `rec` is a Lean
keyword and is called `isRec` here.  `hir/mod.rs` is not under `src/`; the
fields are those used by `flat_let.rs` (`expr`) plus the binding fields the
spec's data model lists (`pattern`, `rec`, `ty`), which `flat_val` copies
unchanged. -/
structure GVal (E : Type) where
  ty : TyDefer
  isRec : Bool
  pattern : Symbol
  expr : E
deriving DecidableEq, Repr

/-- HIR expressions, with exactly the variants matched by
`src/hir/flat_let.rs`: `Binds`, `Fun`, `App`, `If`, `PrimFun`, `Sym`,
`Lit`. -/
inductive Expr : Type where
  | Binds (ty : TyDefer) (binds : List (GVal Expr)) (ret : Expr)
  | Fun (ty : TyDefer) (param : Symbol) (body : Expr)
  | App (ty : TyDefer) (fn : Expr) (arg : Expr)
  | If (ty : TyDefer) (cond : Expr) (then_ : Expr) (else_ : Expr)
  | PrimFun (ty : TyDefer) (name : String)
  | Sym (ty : TyDefer) (name : Symbol)
  | Lit (ty : TyDefer) (value : Literal)

/-- HIR bindings. -/
abbrev Val := GVal Expr

/-- The HIR: a list of top-level bindings (`pub struct HIR(pub Vec<Val>)`,
a tuple struct whose single field is written `hir.0` in Rust and `vals`
here). -/
structure HIR where
  vals : List Val

/-- `take_binds` from `src/hir/flat_let.rs` (lines 9–37): strip the leading
`Binds` wrapper of an expression, extracting hoistable bindings from a
`Binds` itself, from both sides of an `App`, and from the condition (only)
of an `If`; `Fun`, `PrimFun`, `Sym`, `Lit` are returned with no
bindings. -/
def takeBinds : Expr → Expr × List Val
  | .Binds _ binds ret => (ret, binds)
  | .App ty fn arg =>
      let fb := takeBinds fn
      let ab := takeBinds arg
      (.App ty fb.1 ab.1, fb.2 ++ ab.2)
  | .If ty cond then_ else_ =>
      let cb := takeBinds cond
      (.If ty cb.1 then_ else_, cb.2)
  | .Fun ty param body => (.Fun ty param body, [])
  | .PrimFun ty name => (.PrimFun ty name, [])
  | .Sym ty name => (.Sym ty name, [])
  | .Lit ty v => (.Lit ty v, [])

mutual

/-- `FlatLet::flat_expr` (lines 62–100).  In the `Binds` arm each binding's
expression is recursively flattened and then `take_binds`-stripped, the
extracted bindings being emitted in front of the amended binding; the body
`ret` is passed to `take_binds` directly (the source applies `take_binds`
to `*ret` without a recursive `flat_expr` call).  `Fun`, `App`, `If`
recurse into their children without hoisting; leaves are returned
unchanged.  (`self` — the gensym counter — is never consulted by this
function, so it is modelled as pure.) -/
def flatExpr : Expr → Expr
  | .Binds ty binds ret =>
      let vec := flatBinds binds
      let tb := takeBinds ret
      .Binds ty (vec ++ tb.2) tb.1
  | .Fun ty param body => .Fun ty param (flatExpr body)
  | .App ty fn arg => .App ty (flatExpr fn) (flatExpr arg)
  | .If ty cond then_ else_ => .If ty (flatExpr cond) (flatExpr then_) (flatExpr else_)
  | .PrimFun ty name => .PrimFun ty name
  | .Sym ty name => .Sym ty name
  | .Lit ty v => .Lit ty v

/-- The loop body of `flat_expr`'s `Binds` arm (lines 66–73): the `vec`
accumulator receives, for each binding in order, the bindings extracted
from its flattened expression followed by the amended binding itself. -/
def flatBinds : List Val → List Val
  | [] => []
  | v :: vs =>
      let e := flatExpr v.expr
      let tb := takeBinds e
      (tb.2 ++ [{ v with expr := tb.1 }]) ++ flatBinds vs

end

/-- `FlatLet::flat_val` (lines 57–60): replace the expression by its
flattening, keeping every other field. -/
def flatVal (v : Val) : Val := { v with expr := flatExpr v.expr }

/-- `FlatLet::flat_hir` (lines 52–55): map `flat_val` over the top-level
bindings. -/
def flatHir (h : HIR) : HIR := ⟨h.vals.map flatVal⟩

/-- Is the outermost node a `Binds`? -/
def isBinds : Expr → Bool
  | .Binds .. => true
  | _ => false

mutual

/-- Checker for the claimed post-pass shape: no expression node other than
a `Binds` has a `Binds` node as a direct child (a `Binds` may have `Binds`
children through its bindings' expressions and its body). -/
def flatOk : Expr → Bool
  | .Binds _ binds ret => flatOkBinds binds && flatOk ret
  | .Fun _ _ body => !isBinds body && flatOk body
  | .App _ fn arg => (!isBinds fn && !isBinds arg) && (flatOk fn && flatOk arg)
  | .If _ c t e => (!isBinds c && !isBinds t && !isBinds e) && (flatOk c && flatOk t && flatOk e)
  | .PrimFun .. => true
  | .Sym .. => true
  | .Lit .. => true

/-- `flatOk` on every binding expression of a list. -/
def flatOkBinds : List Val → Bool
  | [] => true
  | v :: vs => flatOk v.expr && flatOkBinds vs

end

/-- `flatOk` at every top-level binding of a program (the top-level list
plays the role of a `Binds`, so its bindings' expressions may themselves be
`Binds`). -/
def flatOkHir (h : HIR) : Bool := h.vals.all fun v => flatOk v.expr

/-- Length of the outermost binding list, `0` for a non-`Binds` node. -/
def topBindsLen : Expr → Nat
  | .Binds _ bs _ => bs.length
  | _ => 0

/-- The spec scenario `val z = f (let val a = 1 in a end) (let val b = 2 in b end)`
in HIR form. -/
def exC1 : HIR :=
  ⟨[⟨0, false, ⟨"z"⟩,
     .App 1 (.App 2 (.Sym 3 ⟨"f"⟩)
                   (.Binds 4 [⟨5, false, ⟨"a"⟩, .Lit 6 1⟩] (.Sym 7 ⟨"a"⟩)))
            (.Binds 8 [⟨9, false, ⟨"b"⟩, .Lit 10 2⟩] (.Sym 11 ⟨"b"⟩))⟩]⟩

/-- The spec scenario `val z = if c then (let val a = 1 in a end) else 0`
in HIR form. -/
def exC7 : HIR :=
  ⟨[⟨0, false, ⟨"z"⟩,
     .If 1 (.Sym 2 ⟨"c"⟩)
           (.Binds 3 [⟨4, false, ⟨"a"⟩, .Lit 5 1⟩] (.Sym 6 ⟨"a"⟩))
           (.Lit 7 0)⟩]⟩

/-- Body used for the C3 counterexample: `let val a = 1 in let val b = 2 in
(let val c = 3 in c end) y end end` — a body whose leading `Binds` hides a
deeper, un-flattened `Binds` under an `App`. -/
def retC3 : Expr :=
  .Binds 0 [⟨10, false, ⟨"a"⟩, .Lit 11 1⟩]
    (.Binds 1 [⟨12, false, ⟨"b"⟩, .Lit 13 2⟩]
      (.App 2 (.Binds 3 [⟨14, false, ⟨"c"⟩, .Lit 15 3⟩] (.Sym 4 ⟨"c"⟩))
              (.Sym 5 ⟨"y"⟩)))

/-- The C3 counterexample expression: a `Binds` with no bindings of its own
whose body is `retC3`. -/
def exC3 : Expr := .Binds 20 [] retC3

/-- The claim's version of `flat_expr`'s `Binds` arm, written from the
spec's words: `(body', Bbody) = take_binds(flat_expr(body))` — the body is
recursively flattened *before* the extraction (the source code instead
applies `take_binds` to the body directly). -/
def flatExprClaimed (ty : TyDefer) (binds : List Val) (ret : Expr) : Expr :=
  .Binds ty (flatBinds binds ++ (takeBinds (flatExpr ret)).2) (takeBinds (flatExpr ret)).1

end Hir

namespace Ast

/-- AST symbols (`prim::Symbol`, a `(name, id)` pair; `prim.rs` is not
under `src/`, but `src/ast/rename.rs` writes the id as `symbol.1` and
`src/ast/mod.rs` compares symbols with derived equality on both fields).
The `u64` id is modelled as `Nat`. -/
structure Symbol where
  name : String
  id : Nat
deriving DecidableEq, Repr

/-- AST literal values.  The rename pass never reads or writes them, so a
single integer carrier suffices (the source's float/bool variants would be
dead weight in every claim). -/
abbrev Literal := Int

/-- `ast::Pattern` from `src/ast/mod.rs` (lines 80–86). -/
inductive Pattern where
  | Lit (value : Literal) (ty : TyDefer)
  | Tuple (tuple : List (TyDefer × Symbol))
  | Var (name : Symbol) (ty : TyDefer)
  | Wildcard (ty : TyDefer)
deriving DecidableEq, Repr

/-- `ast::Val` from `src/ast/mod.rs` (lines 23–29), polymorphic in the
expression type so it can be nested inside `Expr`; the source field `rec`
is a Lean keyword and is called `isRec` here. -/
structure GVal (E : Type) where
  ty : TyDefer
  isRec : Bool
  pattern : Pattern
  expr : E
deriving DecidableEq, Repr

/-- `ast::Expr` from `src/ast/mod.rs` (lines 31–78). -/
inductive Expr where
  | Binds (ty : TyDefer) (binds : List (GVal Expr)) (ret : Expr)
  | BinOp (op : Symbol) (ty : TyDefer) (l : Expr) (r : Expr)
  | Fun (paramTy : TyDefer) (param : Symbol) (bodyTy : TyDefer) (body : Expr)
  | App (ty : TyDefer) (fn : Expr) (arg : Expr)
  | If (ty : TyDefer) (cond : Expr) (then_ : Expr) (else_ : Expr)
  | Case (ty : TyDefer) (cond : Expr) (clauses : List (Pattern × Expr))
  | Tuple (ty : TyDefer) (tuple : List Expr)
  | Sym (ty : TyDefer) (name : Symbol)
  | Lit (ty : TyDefer) (value : Literal)

/-- AST bindings. -/
abbrev Val := GVal Expr

/-- `ast::AST` (`pub struct AST(pub Vec<Val>)`; the single tuple-struct
field is written `vals` here). -/
structure AST where
  vals : List Val

/-- One scope table.  The source uses `HashMap<Symbol, u64>`; it is
modelled as an association list where insertion conses in front and lookup
takes the first match, which has the same `get`-after-`insert` behavior as
the hash map (later insertions shadow earlier ones for equal keys). -/
abbrev Table := List (Symbol × Nat)

/-- `HashMap::get`: first binding of the key, if any. -/
def tableGet (t : Table) (sym : Symbol) : Option Nat :=
  (t.find? (fun p => p.1 == sym)).map (·.2)

/-- The state of `Rename` (`src/ast/rename.rs` lines 10–14): the stack of
scope tables, the active depth `pos` (only `tables[0..pos]` is live), and
the id allocator.  `id.rs` is not under `src/`; the allocator is modelled
from the spec: `next()` yields a strictly increasing sequence starting at
1, represented by the `counter` field holding the next id to hand out. -/
structure RState where
  tables : List Table
  pos : Nat
  counter : Nat
deriving Repr

/-- `Scope::new` (lines 37–48): if `tables` has no entry at index `pos`,
push a fresh empty table, otherwise clear the table sitting at `pos`
(note: at top level, `pos = 0` and this clears the table holding the
built-ins); then increment `pos`. -/
def scopeNew (s : RState) : RState :=
  if s.tables.length ≤ s.pos then
    { s with tables := s.tables ++ [[]], pos := s.pos + 1 }
  else
    { s with tables := s.tables.set s.pos [], pos := s.pos + 1 }

/-- `Drop for Scope` (lines 31–35): leaving a scope decrements `pos`; the
table contents are left in place (they are dead until cleared by a later
`Scope::new`). -/
def scopeDrop (s : RState) : RState := { s with pos := s.pos - 1 }

/-- `Scope::new_symbol` (lines 54–59): allocate the next id, insert the
*old* symbol (name and previous id) as key in the innermost live table
`tables[pos - 1]`, and overwrite the symbol's id.  (`List.set`/`getD` are
total; rename only ever calls this with `1 ≤ pos ≤ tables.length`, where
they agree with Rust's indexing.) -/
def newSymbol (s : RState) (sym : Symbol) : RState × Symbol :=
  let pos := s.pos - 1
  let newId := s.counter
  ({ s with
      tables := s.tables.set pos ((sym, newId) :: s.tables.getD pos []),
      counter := s.counter + 1 },
   { sym with id := newId })

/-- The tuple loop of `Scope::new_symbol_pattern` (lines 66–70): assign a
fresh id to every bound name of a tuple pattern, in order. -/
def newSymbolTuple (s : RState) : List (TyDefer × Symbol) → RState × List (TyDefer × Symbol)
  | [] => (s, [])
  | (ty, sym) :: rest =>
      let p := newSymbol s sym
      let q := newSymbolTuple p.1 rest
      (q.1, (ty, p.2) :: q.2)

/-- `Scope::new_symbol_pattern` (lines 61–72): wildcard and literal
patterns bind nothing; a variable pattern binds its name; a tuple pattern
binds each of its names in order. -/
def newSymbolPattern (s : RState) : Pattern → RState × Pattern
  | .Wildcard ty => (s, .Wildcard ty)
  | .Lit v ty => (s, .Lit v ty)
  | .Var name ty =>
      let p := newSymbol s name
      (p.1, .Var p.2 ty)
  | .Tuple tuple =>
      let p := newSymbolTuple s tuple
      (p.1, .Tuple p.2)

/-- The scan of `Scope::rename` over a list of tables (innermost first):
first hit wins. -/
def lookupRev : List Table → Symbol → Option Nat
  | [], _ => none
  | t :: ts, sym =>
      match tableGet t sym with
      | some i => some i
      | none => lookupRev ts sym

/-- `Scope::rename` (lines 74–85): search `tables[0..pos]` from innermost
to outermost; on the first hit overwrite the symbol's id with the stored
id; on a miss leave the symbol unchanged. -/
def scopeRename (s : RState) (sym : Symbol) : Symbol :=
  match lookupRev (s.tables.take s.pos).reverse sym with
  | some newId => { sym with id := newId }
  | none => sym

mutual

/-- The rename traversal of an expression, combining the hooks rename
overrides (`traverse_binds`, `traverse_binop`, `traverse_fun`,
`traverse_case`, `traverse_sym`, rename.rs lines 88–156) with the default
hooks of the `Traverse` trait for `App`, `If`, `Tuple`, `Lit`.
`ast/util.rs` is not under `src/`; the defaults are modelled from the
spec: they simply recurse into the children in document order.
The `Binds` arm is `traverse_binds` (lines 106–113): open a scope, then
for each binding traverse its expression first and register its pattern
second — the `rec` flag is not consulted — then traverse the body and
drop the scope.  The `Fun` arm is `traverse_fun` (lines 127–137): open a
scope, register the parameter, traverse the body, drop the scope. -/
def renameExpr (s : RState) : Expr → RState × Expr
  | .Binds ty binds ret =>
      let s1 := scopeNew s
      let pb := renameBindsList s1 binds
      let pr := renameExpr pb.1 ret
      (scopeDrop pr.1, .Binds ty pb.2 pr.2)
  | .BinOp op ty l r =>
      let op' := scopeRename s op
      let pl := renameExpr s l
      let pr := renameExpr pl.1 r
      (pr.1, .BinOp op' ty pl.2 pr.2)
  | .Fun paramTy param bodyTy body =>
      let s1 := scopeNew s
      let pp := newSymbol s1 param
      let pb := renameExpr pp.1 body
      (scopeDrop pb.1, .Fun paramTy pp.2 bodyTy pb.2)
  | .App ty fn arg =>
      let pf := renameExpr s fn
      let pa := renameExpr pf.1 arg
      (pa.1, .App ty pf.2 pa.2)
  | .If ty c t e =>
      let pc := renameExpr s c
      let pt := renameExpr pc.1 t
      let pe := renameExpr pt.1 e
      (pe.1, .If ty pc.2 pt.2 pe.2)
  | .Case ty cond clauses =>
      let pc := renameExpr s cond
      let pcl := renameClauses pc.1 clauses
      (pcl.1, .Case ty pc.2 pcl.2)
  | .Tuple ty tuple =>
      let pt := renameExprList s tuple
      (pt.1, .Tuple ty pt.2)
  | .Sym ty name => (s, .Sym ty (scopeRename s name))
  | .Lit ty v => (s, .Lit ty v)

/-- The loop of `traverse_binds` (lines 108–111): for each binding,
`traverse_val` (i.e. traverse the expression) first, then register the
pattern — regardless of the binding's `rec` flag. -/
def renameBindsList (s : RState) : List Val → RState × List Val
  | [] => (s, [])
  | v :: vs =>
      let pe := renameExpr s v.expr
      let pp := newSymbolPattern pe.1 v.pattern
      let pvs := renameBindsList pp.1 vs
      (pvs.1, { v with pattern := pp.2, expr := pe.2 } :: pvs.2)

/-- The clause loop of `traverse_case` (lines 146–150): per clause, open a
scope, register the pattern, traverse the arm, drop the scope. -/
def renameClauses (s : RState) : List (Pattern × Expr) → RState × List (Pattern × Expr)
  | [] => (s, [])
  | (pat, arm) :: rest =>
      let s1 := scopeNew s
      let pp := newSymbolPattern s1 pat
      let pa := renameExpr pp.1 arm
      let s4 := scopeDrop pa.1
      let pr := renameClauses s4 rest
      (pr.1, (pp.2, pa.2) :: pr.2)

/-- Elementwise traversal of a `Tuple` expression's children (default
`Traverse` hook, modelled from the spec: recurse in document order). -/
def renameExprList (s : RState) : List Expr → RState × List Expr
  | [] => (s, [])
  | e :: es =>
      let pe := renameExpr s e
      let pes := renameExprList pe.1 es
      (pes.1, pe.2 :: pes.2)

end

/-- `traverse_ast` (rename.rs lines 89–100): for each top-level binding in
document order, if `rec` register the pattern first and then traverse the
expression, else traverse the expression first and then register the
pattern. -/
def traverseAst (s : RState) : List Val → RState × List Val
  | [] => (s, [])
  | v :: vs =>
      if v.isRec then
        let pp := newSymbolPattern s v.pattern
        let pe := renameExpr pp.1 v.expr
        let pvs := traverseAst pe.1 vs
        (pvs.1, { v with pattern := pp.2, expr := pe.2 } :: pvs.2)
      else
        let pe := renameExpr s v.expr
        let pp := newSymbolPattern pe.1 v.pattern
        let pvs := traverseAst pp.1 vs
        (pvs.1, { v with pattern := pp.2, expr := pe.2 } :: pvs.2)

/-- `Rename::new` (lines 158–176): the initial state has a single table
mapping every built-in name (at id 0) to id 0, `pos = 0`, and a fresh
allocator.  `crate::BUILTIN_FUNCTIONS` is not under `src/`; following the
spec it is an arbitrary list of names supplied at construction. -/
def initState (builtins : List String) : RState :=
  ⟨[builtins.map fun n => (⟨n, 0⟩, 0)], 0, 1⟩

/-- `Pass::trans` for `Rename` (lines 178–185): create the top-level scope
(note that `Scope::new` clears the built-ins table at index 0) and run
`traverse_ast`. -/
def renamePass (builtins : List String) (ast : AST) : AST :=
  let s0 := scopeNew (initState builtins)
  ⟨(traverseAst s0 ast.vals).2⟩

/-- Ids of the binding occurrences of a pattern, in registration order. -/
def bindersPat : Pattern → List Nat
  | .Var name _ => [name.id]
  | .Tuple tuple => tuple.map (·.2.id)
  | _ => []

mutual

/-- Ids of all binding occurrences in an expression, listed in the order
the rename traversal registers them (binding-list order inside `Binds`
is expression first, pattern second). -/
def bindersExpr : Expr → List Nat
  | .Binds _ binds ret => bindersVals binds ++ bindersExpr ret
  | .BinOp _ _ l r => bindersExpr l ++ bindersExpr r
  | .Fun _ param _ body => param.id :: bindersExpr body
  | .App _ fn arg => bindersExpr fn ++ bindersExpr arg
  | .If _ c t e => (bindersExpr c ++ bindersExpr t) ++ bindersExpr e
  | .Case _ cond clauses => bindersExpr cond ++ bindersClauses clauses
  | .Tuple _ tuple => bindersExprList tuple
  | .Sym _ _ => []
  | .Lit _ _ => []

/-- Binding occurrences of a `Binds` binding list, expression before
pattern for each binding. -/
def bindersVals : List Val → List Nat
  | [] => []
  | v :: vs => (bindersExpr v.expr ++ bindersPat v.pattern) ++ bindersVals vs

/-- Binding occurrences of case clauses, pattern before arm. -/
def bindersClauses : List (Pattern × Expr) → List Nat
  | [] => []
  | (p, e) :: rest => (bindersPat p ++ bindersExpr e) ++ bindersClauses rest

/-- Binding occurrences of a list of expressions. -/
def bindersExprList : List Expr → List Nat
  | [] => []
  | e :: es => bindersExpr e ++ bindersExprList es

end

/-- Binding occurrences of the top-level binding list, in registration
order (pattern first for `rec` bindings, expression first otherwise). -/
def bindersTop : List Val → List Nat
  | [] => []
  | v :: vs =>
      (if v.isRec then bindersPat v.pattern ++ bindersExpr v.expr
       else bindersExpr v.expr ++ bindersPat v.pattern) ++ bindersTop vs

/-- All binding-occurrence ids of a program. -/
def bindersAst (a : AST) : List Nat := bindersTop a.vals

end Ast

namespace Parse

/-- Literal values as built by `src/parser.rs`.  `prim.rs` is not under
`src/`; modelled from the spec: integers are 64-bit signed (the spec's
implementation choice for this code base), booleans are booleans.  IEEE-754
doubles are not representable in the embedding; a float literal carries the
recognized source slice instead, which no claim inspects. -/
inductive PLit where
  | Int (value : Int)
  | Float (src : String)
  | Bool (b : Bool)

/-- A parsed binding (`Val` as built by `src/parser.rs` lines 25 and 46:
`Val{ty, rec, name, expr}`).  The deferred type slots created by
`TyDefer::empty()` are empty cells never read during parsing and are
omitted; the source field `rec` is a Lean keyword and is called `isRec`
here; `name` is the parser-side symbol (`Symbol(String)`). -/
structure PVal (E : Type) where
  isRec : Bool
  name : String
  expr : E

/-- Expressions as built by `src/parser.rs`: `Binds`, `Add`, `Mul`, `Fun`,
`App`, `If`, `Sym`, `Lit` (this parser-era AST has dedicated `Add`/`Mul`
nodes).  Empty deferred type slots are omitted as in `PVal`. -/
inductive PExpr where
  | Binds (binds : List (PVal PExpr)) (ret : PExpr)
  | Add (l : PExpr) (r : PExpr)
  | Mul (l : PExpr) (r : PExpr)
  | Fun (param : String) (body : PExpr)
  | App (fn : PExpr) (arg : PExpr)
  | If (cond : PExpr) (then_ : PExpr) (else_ : PExpr)
  | Sym (name : String)
  | Lit (value : PLit)

/-- Outcome of running a nom parser on a complete input: `done rest value`
(nom `Done`), `fail` (nom `Error`, i.e. what `parse` surfaces as a
`ParseError`), or `panic` (a Rust `panic!`/`.expect` abort, which is not a
return value at all). -/
inductive PRes (α : Type) where
  | done (rest : List Char) (value : α)
  | fail
  | panic

/-- A parser over characters (the source slices bytes, but every byte the
grammar touches is ASCII, where the two views agree; invalid UTF-8 cannot
reach `from_utf8` because `alphanumeric`/`digit` only accept ASCII). -/
abbrev Parser (α : Type) := List Char → PRes α

/-- Sequencing of nom `do_parse!`: a failure or panic of the first parser
short-circuits. -/
def seqP (p : Parser α) (f : α → Parser β) : Parser β := fun inp =>
  match p inp with
  | .done rest a => f a rest
  | .fail => .fail
  | .panic => .panic

/-- The parser returning a value without consuming input (the final
value-building step of `do_parse!`). -/
def pPure (a : α) : Parser α := fun inp => .done inp a

/-- nom `alt!` between two branches: the second runs only if the first
returns an error (a panic aborts everything). -/
def alt2 (p q : Parser α) : Parser α := fun inp =>
  match p inp with
  | .fail => q inp
  | r => r

/-- nom `tag!`: match a literal string prefix. -/
def tag (t : String) : Parser Unit := fun inp =>
  if t.toList.isPrefixOf inp then .done (inp.drop t.toList.length) () else .fail

/-- One-or-more characters satisfying a predicate (maximal munch), the
shape shared by nom's `multispace`, `digit` and `alphanumeric` on complete
input. -/
def takeWhile1 (pred : Char → Bool) : Parser (List Char) := fun inp =>
  let tk := inp.takeWhile pred
  if tk.isEmpty then .fail else .done (inp.dropWhile pred) tk

/-- nom's whitespace class: space, tab, carriage return, line feed. -/
def isSpaceChar (c : Char) : Bool := c == ' ' || c == '\t' || c == '\r' || c == '\n'

/-- nom `multispace`: one or more whitespace characters. -/
def multispace : Parser (List Char) := takeWhile1 isSpaceChar

/-- nom `digit`: one or more ASCII decimal digits. -/
def digit : Parser (List Char) := takeWhile1 Char.isDigit

/-- nom `alphanumeric`: one or more ASCII letters or digits. -/
def alphanumeric : Parser (List Char) := takeWhile1 Char.isAlphanum

/-- nom `opt!`: turn failure into `none` without consuming input. -/
def opt (p : Parser α) : Parser (Option α) := fun inp =>
  match p inp with
  | .done rest a => .done rest (some a)
  | .fail => .done inp none
  | .panic => .panic

/-- nom `eof!`: succeed exactly at the end of input. -/
def eof : Parser Unit := fun inp =>
  match inp with
  | [] => .done [] ()
  | _ => .fail

/-- The reserved words of `symbol` (`src/parser.rs` lines 181–187). -/
def reservedWords : List String :=
  ["val", "fun", "fn", "let", "in", "end", "if", "then", "else"]

/-- `symbol` (lines 181–187): an alphanumeric run that is not a reserved
word; a reserved word makes the `map_res!` return an error. -/
def symbol : Parser String := fun inp =>
  match alphanumeric inp with
  | .done rest s =>
      let name := String.mk s
      if reservedWords.contains name then .fail else .done rest name
  | .fail => .fail
  | .panic => .panic

/-- Decimal value of a digit run. -/
def digitsToNat (ds : List Char) : Nat :=
  ds.foldl (fun acc c => 10 * acc + (c.toNat - '0'.toNat)) 0

/-- Largest `i64` value. -/
def i64Max : Nat := 9223372036854775807

/-- Rust `str::parse::<i64>()` on a non-empty all-digit slice: the decimal
value if it fits in `i64`, otherwise an overflow error (`None`). -/
def parseI64 (ds : List Char) : Option Int :=
  let n := digitsToNat ds
  if n ≤ i64Max then some (Int.ofNat n) else none

/-- `expr0_int` (lines 148–151): a digit run mapped through
`parse::<i64>().expect(...)`; an overflowing literal hits the `.expect`
and panics. -/
def expr0Int : Parser PExpr := fun inp =>
  match digit inp with
  | .done rest ds =>
      match parseI64 ds with
      | some n => .done rest (.Lit (.Int n))
      | none => .panic
  | .fail => .fail
  | .panic => .panic

/-- `unsigned_float`'s recognized slice (lines 157–167):
`digit "." digit?`, returned as the consumed characters. -/
def recognizeFloat : Parser (List Char) := fun inp =>
  match (seqP digit fun _ => seqP (tag ".") fun _ => opt digit) inp with
  | .done rest _ => .done rest (inp.take (inp.length - rest.length))
  | .fail => .fail
  | .panic => .panic

/-- `expr0_float` (lines 152–154): a recognized float slice as a literal
(the `f64` conversion of a `digit+ "." digit*` slice never fails, so the
`map_res!` never errors there). -/
def expr0Float : Parser PExpr := fun inp =>
  match recognizeFloat inp with
  | .done rest s => .done rest (.Lit (.Float (String.mk s)))
  | .fail => .fail
  | .panic => .panic

/-- `expr0_bool` (lines 168–170). -/
def expr0Bool : Parser PExpr :=
  alt2 (seqP (tag "true") fun _ => pPure (PExpr.Lit (.Bool true)))
       (seqP (tag "false") fun _ => pPure (PExpr.Lit (.Bool false)))

/-- `expr0_sym` (lines 144–147). -/
def expr0Sym : Parser PExpr := seqP symbol fun s => pPure (PExpr.Sym s)

/-- The parameter list of `bind_fun`:
`separated_nonempty_list!(multispace, symbol)`, with explicit fuel (the
grammar is modelled with a fuel parameter; `fail` at fuel 0 never fires
for the inputs evaluated below). -/
def symbolSeqRest : Nat → List String → Parser (List String)
  | 0, _ => fun _ => .fail
  | n + 1, acc => fun inp =>
      match multispace inp with
      | .panic => .panic
      | .fail => .done inp acc.reverse
      | .done rest _ =>
        match symbol rest with
        | .panic => .panic
        | .fail => .done inp acc.reverse
        | .done rest2 s => symbolSeqRest n (s :: acc) rest2

/-- `separated_nonempty_list!(multispace, symbol)`: at least one symbol. -/
def symbolSeqNE (n : Nat) : Parser (List String) := fun inp =>
  match symbol inp with
  | .panic => .panic
  | .fail => .fail
  | .done rest s => symbolSeqRest n [s] rest

mutual

/-- `expr` (lines 50–56): ordered choice between the five expression
productions. -/
def pExpr : Nat → Parser PExpr
  | 0 => fun _ => .fail
  | n + 1 =>
      alt2 (pExprBind n)
        (alt2 (pExprFun n) (alt2 (pExprIf n) (alt2 (pExprAdd n) (pExpr1 n))))

/-- `expr_bind` (lines 74–80): `let … in … end`. -/
def pExprBind : Nat → Parser PExpr
  | 0 => fun _ => .fail
  | n + 1 =>
      seqP (tag "let") fun _ =>
      seqP multispace fun _ =>
      seqP (pBindSeq n) fun binds =>
      seqP multispace fun _ =>
      seqP (tag "in") fun _ =>
      seqP multispace fun _ =>
      seqP (pExpr n) fun ret =>
      seqP multispace fun _ =>
      seqP (tag "end") fun _ =>
      pPure (PExpr.Binds binds ret)

/-- `expr_fun` (lines 82–96): `fn x => e`. -/
def pExprFun : Nat → Parser PExpr
  | 0 => fun _ => .fail
  | n + 1 =>
      seqP (tag "fn") fun _ =>
      seqP multispace fun _ =>
      seqP symbol fun param =>
      seqP (opt multispace) fun _ =>
      seqP (tag "=>") fun _ =>
      seqP (opt multispace) fun _ =>
      seqP (pExpr n) fun body =>
      pPure (PExpr.Fun param body)

/-- `expr_if` (lines 98–108). -/
def pExprIf : Nat → Parser PExpr
  | 0 => fun _ => .fail
  | n + 1 =>
      seqP (tag "if") fun _ =>
      seqP multispace fun _ =>
      seqP (pExpr n) fun cond =>
      seqP multispace fun _ =>
      seqP (tag "then") fun _ =>
      seqP multispace fun _ =>
      seqP (pExpr n) fun then_ =>
      seqP multispace fun _ =>
      seqP (tag "else") fun _ =>
      seqP multispace fun _ =>
      seqP (pExpr n) fun else_ =>
      pPure (PExpr.If cond then_ else_)

/-- `expr_add` (lines 126–133): `expr1 "+" expr`, right-recursive in its
second operand. -/
def pExprAdd : Nat → Parser PExpr
  | 0 => fun _ => .fail
  | n + 1 =>
      seqP (pExpr1 n) fun e1 =>
      seqP (opt multispace) fun _ =>
      seqP (tag "+") fun _ =>
      seqP (opt multispace) fun _ =>
      seqP (pExpr n) fun e2 =>
      pPure (PExpr.Add e1 e2)

/-- `expr1` (lines 58–63). -/
def pExpr1 : Nat → Parser PExpr
  | 0 => fun _ => .fail
  | n + 1 => alt2 (pExpr1App n) (alt2 (pExpr1Mul n) (pExpr0 n))

/-- `expr1_app` (lines 110–124): two `expr0`s followed by optionally more,
folded left-associatively into `App` nodes. -/
def pExpr1App : Nat → Parser PExpr
  | 0 => fun _ => .fail
  | n + 1 =>
      seqP (pExpr0 n) fun f =>
      seqP multispace fun _ =>
      seqP (pExpr0 n) fun arg =>
      seqP (opt (seqP multispace fun _ => pExpr0Seq n)) fun rest =>
      pPure ((rest.getD []).foldl (fun acc elm => PExpr.App acc elm) (PExpr.App f arg))

/-- `expr1_mul` (lines 135–142): `expr0 "*" expr1`, right-recursive in its
second operand. -/
def pExpr1Mul : Nat → Parser PExpr
  | 0 => fun _ => .fail
  | n + 1 =>
      seqP (pExpr0 n) fun e1 =>
      seqP (opt multispace) fun _ =>
      seqP (tag "*") fun _ =>
      seqP (opt multispace) fun _ =>
      seqP (pExpr1 n) fun e2 =>
      pPure (PExpr.Mul e1 e2)

/-- `expr0` (lines 65–71): parenthesized expression or atom. -/
def pExpr0 : Nat → Parser PExpr
  | 0 => fun _ => .fail
  | n + 1 =>
      alt2 (pExpr0Paren n)
        (alt2 expr0Float (alt2 expr0Int (alt2 expr0Bool expr0Sym)))

/-- `expr0_paren` (lines 172–179). -/
def pExpr0Paren : Nat → Parser PExpr
  | 0 => fun _ => .fail
  | n + 1 =>
      seqP (tag "(") fun _ =>
      seqP (opt multispace) fun _ =>
      seqP (pExpr n) fun e =>
      seqP (opt multispace) fun _ =>
      seqP (tag ")") fun _ =>
      pPure e

/-- `bind` (line 14): a `val` or `fun` binding. -/
def pBind : Nat → Parser (PVal PExpr)
  | 0 => fun _ => .fail
  | n + 1 => alt2 (pBindVal n) (pBindFun n)

/-- `bind_val` (lines 17–26): `val x = e`, a non-recursive binding. -/
def pBindVal : Nat → Parser (PVal PExpr)
  | 0 => fun _ => .fail
  | n + 1 =>
      seqP (tag "val") fun _ =>
      seqP multispace fun _ =>
      seqP symbol fun name =>
      seqP (opt multispace) fun _ =>
      seqP (tag "=") fun _ =>
      seqP (opt multispace) fun _ =>
      seqP (pExpr n) fun e =>
      pPure (⟨false, name, e⟩ : PVal PExpr)

/-- `bind_fun` (lines 28–48): `fun f x … = e`, desugared into a recursive
binding of right-folded single-argument lambdas. -/
def pBindFun : Nat → Parser (PVal PExpr)
  | 0 => fun _ => .fail
  | n + 1 =>
      seqP (tag "fun") fun _ =>
      seqP multispace fun _ =>
      seqP symbol fun name =>
      seqP multispace fun _ =>
      seqP (symbolSeqNE n) fun params =>
      seqP (opt multispace) fun _ =>
      seqP (tag "=") fun _ =>
      seqP (opt multispace) fun _ =>
      seqP (pExpr n) fun e =>
      pPure (⟨true, name, params.reverse.foldl (fun acc param => PExpr.Fun param acc) e⟩ :
        PVal PExpr)

/-- `separated_list!(multispace, bind)` (continuation): keep consuming
`multispace bind`; on a failure of either, stop and give back the input
from before the separator (nom backtracks the separator together with the
failed element). -/
def pBindSeqRest : Nat → List (PVal PExpr) → Parser (List (PVal PExpr))
  | 0, _ => fun _ => .fail
  | n + 1, acc => fun inp =>
      match multispace inp with
      | .panic => .panic
      | .fail => .done inp acc.reverse
      | .done rest _ =>
        match pBind n rest with
        | .panic => .panic
        | .fail => .done inp acc.reverse
        | .done rest2 v => pBindSeqRest n (v :: acc) rest2

/-- `separated_list!(multispace, bind)`: possibly empty binding list. -/
def pBindSeq : Nat → Parser (List (PVal PExpr))
  | 0 => fun _ => .fail
  | n + 1 => fun inp =>
      match pBind n inp with
      | .panic => .panic
      | .fail => .done inp []
      | .done rest v => pBindSeqRest n [v] rest

/-- `separated_list!(multispace, expr0)` (continuation), as used by
`expr1_app`. -/
def pExpr0SeqRest : Nat → List PExpr → Parser (List PExpr)
  | 0, _ => fun _ => .fail
  | n + 1, acc => fun inp =>
      match multispace inp with
      | .panic => .panic
      | .fail => .done inp acc.reverse
      | .done rest _ =>
        match pExpr0 n rest with
        | .panic => .panic
        | .fail => .done inp acc.reverse
        | .done rest2 e => pExpr0SeqRest n (e :: acc) rest2

/-- `separated_list!(multispace, expr0)`: possibly empty argument list. -/
def pExpr0Seq : Nat → Parser (List PExpr)
  | 0 => fun _ => .fail
  | n + 1 => fun inp =>
      match pExpr0 n inp with
      | .panic => .panic
      | .fail => .done inp []
      | .done rest e => pExpr0SeqRest n [e] rest

end

/-- `top` (lines 7–12): optional whitespace, the top-level binding list,
optional whitespace, end of input. -/
def pTop (n : Nat) : Parser (List (PVal PExpr)) :=
  seqP (opt multispace) fun _ =>
  seqP (pBindSeq n) fun tops =>
  seqP (opt multispace) fun _ =>
  seqP eof fun _ =>
  pPure tops

/-- Fuel amply sufficient for the inputs evaluated in the theorems below
(each grammar recursion step either consumes input or descends a fixed
alternative chain). -/
def fuelFor (s : String) : Nat := 50 * (s.length + 1)

/-- `parse` (lines 189–192): run `top` on the whole input.  nom's
`to_result` turns `Done` into `Ok(AST)` and `Error` into `Err`, i.e.
`done`/`fail` here; a Rust panic inside a sub-parser is `panic`. -/
def parse (s : String) : PRes (List (PVal PExpr)) := pTop (fuelFor s) s.toList

/-- Run the `expr` production on a whole string (used to state the
associativity scenarios). -/
def parseExpr (s : String) : PRes PExpr := pExpr (fuelFor s) s.toList

/-- Does a parser outcome carry a reserved word as its value?  Used to
state that `symbol` never accepts a reserved word, without a hypothesis. -/
def resIsReserved : PRes String → Bool
  | .done _ nm => reservedWords.contains nm
  | _ => false

end Parse

namespace Ast

/-- The allocator contract of a traversal step: starting with next id `c`
it ends with next id `c'`, and the binder ids it wrote are exactly the
consecutive ids `c, c+1, …, c'-1` in order. -/
def RenOk (c c' : Nat) (ids : List Nat) : Prop :=
  c' = c + ids.length ∧ ids = List.range' c ids.length

/-- The AST of `val z = let val rec f = f in 0 end` — a `let` whose single
binding is marked `rec` and whose right-hand side mentions the bound name
itself.  (Slot numbers are arbitrary distinct tags.) -/
def exC2 : AST :=
  ⟨[⟨0, false, .Var ⟨"z", 0⟩ 1,
     .Binds 2 [⟨3, true, .Var ⟨"f", 0⟩ 4, .Sym 5 ⟨"f", 0⟩⟩] (.Lit 6 0)⟩]⟩

/-- The same recursive self-referencing binding placed at top level
(`fun`-style, `rec = true`): `val rec f = f`. -/
def exC2top : AST := ⟨[⟨3, true, .Var ⟨"f", 0⟩ 4, .Sym 5 ⟨"f", 0⟩⟩]⟩

/-- The AST of `val y = x + 1` (the `+` still carries the unresolved
id 0, as all parsed symbols do). -/
def exC6 : AST :=
  ⟨[⟨0, false, .Var ⟨"y", 0⟩ 1,
     .BinOp ⟨"+", 0⟩ 2 (.Sym 3 ⟨"x", 0⟩) (.Lit 4 1)⟩]⟩

/-- For a one-binding program whose expression is a one-binding `let` with
a variable pattern and a plain symbol right-hand side: the id of the `let`
binder and the id of the symbol use in its right-hand side. -/
def innerBindSym (a : AST) : Option (Nat × Nat) :=
  match a.vals with
  | [v] =>
      match v.expr with
      | .Binds _ [b] _ =>
          match b.pattern, b.expr with
          | .Var nm _, .Sym _ use => some (nm.id, use.id)
          | _, _ => none
      | _ => none
  | _ => none

/-- For a one-binding program with a variable pattern and a plain symbol
expression: the id of the binder and the id of the symbol use. -/
def topBindSym (a : AST) : Option (Nat × Nat) :=
  match a.vals with
  | [v] =>
      match v.pattern, v.expr with
      | .Var nm _, .Sym _ use => some (nm.id, use.id)
      | _, _ => none
  | _ => none

/-- For a one-binding program whose expression is a binary operator: the
id carried by the operator symbol after renaming. -/
def binOpId (a : AST) : Option Nat :=
  match a.vals with
  | [v] =>
      match v.expr with
      | .BinOp op _ _ _ => some op.id
      | _ => none
  | _ => none

/-- Set a binding's `rec` flag (used to state that the `let` binding loop
is insensitive to it). -/
def setRec (b : Bool) (v : Val) : Val := { v with isRec := b }

end Ast

namespace Ast

/-- An empty traversal step satisfies the allocator contract. -/
theorem RenOk.nil (c : Nat) : RenOk c c [] := ⟨rfl, rfl⟩

/-- Consecutive traversal steps compose: the ids of the two steps
concatenate to the consecutive ids of the combined step. -/
theorem RenOk.append {c c1 c2 : Nat} {l1 l2 : List Nat}
    (h1 : RenOk c c1 l1) (h2 : RenOk c1 c2 l2) : RenOk c c2 (l1 ++ l2) := by
  obtain ⟨e1, r1⟩ := h1
  obtain ⟨e2, r2⟩ := h2
  subst e1
  refine ⟨by simp; omega, ?_⟩
  have hlen : (l1 ++ l2).length = l1.length + l2.length := List.length_append _ _
  rw [hlen, Nat.add_comm l1.length l2.length]
  conv_lhs => rw [r1, r2]
  exact List.range'_append_1 c l1.length l2.length

/-- Allocating the current id in front of a subsequent step keeps the ids
consecutive. -/
theorem RenOk.cons {c c' : Nat} {l : List Nat} (h : RenOk (c + 1) c' l) :
    RenOk c c' (c :: l) := by
  obtain ⟨e, r⟩ := h
  refine ⟨by simp; omega, ?_⟩
  have hlen : (c :: l).length = l.length + 1 := rfl
  rw [hlen, List.range'_succ]
  conv_lhs => rw [r]

/-- Entering a scope does not touch the id allocator. -/
theorem scopeNew_counter (s : RState) : (scopeNew s).counter = s.counter := by
  unfold scopeNew; split <;> rfl

/-- Leaving a scope does not touch the id allocator. -/
theorem scopeDrop_counter (s : RState) : (scopeDrop s).counter = s.counter := rfl

/-- `new_symbol` consumes exactly one id. -/
theorem newSymbol_counter (s : RState) (sym : Symbol) :
    (newSymbol s sym).1.counter = s.counter + 1 := rfl

/-- `new_symbol` writes the allocated id into the binder. -/
theorem newSymbol_id (s : RState) (sym : Symbol) :
    (newSymbol s sym).2.id = s.counter := rfl

/-- Registering a tuple pattern's names writes consecutive fresh ids. -/
theorem renOkTuple (s : RState) (l : List (TyDefer × Symbol)) :
    RenOk s.counter (newSymbolTuple s l).1.counter
      ((newSymbolTuple s l).2.map (·.2.id)) := by
  induction l generalizing s with
  | nil => exact RenOk.nil _
  | cons hd tl ih =>
      obtain ⟨ty, sym⟩ := hd
      simp only [newSymbolTuple, List.map_cons]
      exact RenOk.cons (ih (newSymbol s sym).1)

/-- Registering any pattern writes consecutive fresh ids into its binding
occurrences. -/
theorem renOkPattern (s : RState) (p : Pattern) :
    RenOk s.counter (newSymbolPattern s p).1.counter
      (bindersPat (newSymbolPattern s p).2) := by
  cases p with
  | Wildcard ty => exact RenOk.nil _
  | Lit v ty => exact RenOk.nil _
  | Var nm ty => exact RenOk.cons (RenOk.nil _)
  | Tuple l => exact renOkTuple s l

/-- Master lemma: traversing any expression from any state writes exactly
the consecutive ids `s.counter, …` into the binding occurrences of the
output (in traversal order), advancing the allocator by their number. -/
theorem renOkExpr : ∀ (s : RState) (e : Expr),
    RenOk s.counter (renameExpr s e).1.counter (bindersExpr (renameExpr s e).2) := by
  refine Ast.renameExpr.induct
    (fun s e => RenOk s.counter (renameExpr s e).1.counter (bindersExpr (renameExpr s e).2))
    (fun s es => RenOk s.counter (renameExprList s es).1.counter
      (bindersExprList (renameExprList s es).2))
    (fun s cls => RenOk s.counter (renameClauses s cls).1.counter
      (bindersClauses (renameClauses s cls).2))
    (fun s vs => RenOk s.counter (renameBindsList s vs).1.counter
      (bindersVals (renameBindsList s vs).2))
    ?_ ?_ ?_ ?_ ?_ ?_ ?_ ?_ ?_ ?_ ?_ ?_ ?_ ?_ ?_
  · intro s ty binds ret
    dsimp only
    intro h4 h1
    rw [scopeNew_counter] at h4
    simp only [renameExpr, bindersExpr, scopeDrop_counter]
    exact RenOk.append h4 h1
  · intro s op ty l r
    dsimp only
    intro h1 h2
    simp only [renameExpr, bindersExpr]
    exact RenOk.append h1 h2
  · intro s paramTy param bodyTy body
    dsimp only
    intro h
    rw [newSymbol_counter, scopeNew_counter] at h
    simp only [renameExpr, bindersExpr, scopeDrop_counter, newSymbol_id, scopeNew_counter]
    exact RenOk.cons h
  · intro s ty fn arg
    dsimp only
    intro h1 h2
    simp only [renameExpr, bindersExpr]
    exact RenOk.append h1 h2
  · intro s ty c t e
    dsimp only
    intro h1 h2 h3
    simp only [renameExpr, bindersExpr]
    exact RenOk.append (RenOk.append h1 h2) h3
  · intro s ty cond clauses
    dsimp only
    intro h1 h3
    simp only [renameExpr, bindersExpr]
    exact RenOk.append h1 h3
  · intro s ty tuple
    dsimp only
    intro h2
    simp only [renameExpr, bindersExpr]
    exact h2
  · intro s ty name
    simp only [renameExpr, bindersExpr]
    exact RenOk.nil _
  · intro s ty v
    simp only [renameExpr, bindersExpr]
    exact RenOk.nil _
  · intro s
    simp only [renameBindsList, bindersVals]
    exact RenOk.nil _
  · intro s v vs
    dsimp only
    intro h1 h4
    simp only [renameBindsList, bindersVals]
    exact RenOk.append (RenOk.append h1 (renOkPattern _ _)) h4
  · intro s
    simp only [renameClauses, bindersClauses]
    exact RenOk.nil _
  · intro s pat arm rest
    dsimp only
    intro h1 h3
    rw [scopeDrop_counter] at h3
    simp only [renameClauses, bindersClauses, scopeDrop_counter]
    refine RenOk.append (RenOk.append ?_ h1) h3
    exact scopeNew_counter s ▸ renOkPattern (scopeNew s) pat
  · intro s
    simp only [renameExprList, bindersExprList]
    exact RenOk.nil _
  · intro s e es
    dsimp only
    intro h1 h2
    simp only [renameExprList, bindersExprList]
    exact RenOk.append h1 h2

/-- The top-level loop also writes exactly consecutive fresh ids,
whichever way each binding's `rec` flag orders pattern and expression. -/
theorem renOkTop (s : RState) (vs : List Val) :
    RenOk s.counter (traverseAst s vs).1.counter (bindersTop (traverseAst s vs).2) := by
  induction vs generalizing s with
  | nil => exact RenOk.nil _
  | cons v vs ih =>
      cases hR : v.isRec with
      | true =>
          simp only [traverseAst, hR, if_true, bindersTop]
          exact RenOk.append
            (RenOk.append (renOkPattern s v.pattern) (renOkExpr _ _)) (ih _)
      | false =>
          simp only [traverseAst, hR, if_false, bindersTop]
          exact RenOk.append
            (RenOk.append (renOkExpr s v.expr) (renOkPattern _ _)) (ih _)

/-- Claim C5: after the rename pass, every binding occurrence — including
each name bound by a tuple pattern, which consumes one id of its own —
carries an id that is nonzero and distinct from the id of every other
binding occurrence in the tree (the ids are exactly `1, …, n` for the `n`
binding occurrences, and the allocator has advanced by one id per
occurrence). -/
theorem rename_binder_ids_unique_nonzero (builtins : List String) (a : AST) :
    (∀ i ∈ bindersAst (renamePass builtins a), i ≠ 0) ∧
    (bindersAst (renamePass builtins a)).Nodup ∧
    (traverseAst (scopeNew (initState builtins)) a.vals).1.counter
      = 1 + (bindersAst (renamePass builtins a)).length := by
  have h := renOkTop (scopeNew (initState builtins)) a.vals
  rw [scopeNew_counter] at h
  have hinit : (initState builtins).counter = 1 := rfl
  rw [hinit] at h
  obtain ⟨hc, hr⟩ := h
  have hb : bindersAst (renamePass builtins a)
      = bindersTop (traverseAst (scopeNew (initState builtins)) a.vals).2 := rfl
  refine ⟨?_, ?_, ?_⟩
  · intro i hi
    rw [hb, hr] at hi
    have := List.mem_range'_1.mp hi
    omega
  · rw [hb, hr]
    exact List.nodup_range' _ _
  · rw [hb]
    omega

/-- Claim C2, counterexample: renaming `val z = let val rec f = f in 0 end`
gives the `let` binder of `f` the fresh id 1, but the reference to `f`
inside its own right-hand side keeps id 0 — it does *not* resolve to the
binder, because `traverse_binds` traverses the expression before
registering the pattern even when `rec` is set.  The claim predicts the
two ids to be equal. -/
theorem let_rec_binding_counterexample :
    innerBindSym (renamePass [] exC2) = some (1, 0) ∧
    (innerBindSym (renamePass [] exC2)).map (fun p => decide (p.1 = p.2)) = some false :=
  ⟨rfl, rfl⟩

/-- Claim C2, amended: inside a `let`, the rename pass processes every
binding as if it were non-recursive — the right-hand side is traversed
before the pattern is registered and the `rec` flag is never consulted, so
the result of the binding loop is entirely insensitive to the `rec` flags
(first conjunct), unlike at top level where the same `rec` binding does
resolve to its own binder (second conjunct: binder and use both get id 1
for the top-level `val rec f = f`). -/
theorem let_bindings_ignore_rec_flag :
    (∀ (s : RState) (binds : List Val) (b : Bool),
        (renameBindsList s (binds.map (setRec b))).1 = (renameBindsList s binds).1 ∧
        (renameBindsList s (binds.map (setRec b))).2
          = (renameBindsList s binds).2.map (setRec b)) ∧
    topBindSym (renamePass [] exC2top) = some (1, 1) := by
  constructor
  · intro s binds b
    induction binds generalizing s with
    | nil => exact ⟨rfl, rfl⟩
    | cons v vs ih =>
        simp only [List.map_cons, renameBindsList, setRec]
        obtain ⟨ih1, ih2⟩ := ih (newSymbolPattern (renameExpr s v.expr).1 v.pattern).1
        exact ⟨ih1, by rw [ih2]⟩
  · rfl

/-- Claim C6: a symbol whose lookup misses every live scope table is left
completely unchanged by resolution, and concretely, renaming
`val y = x + 1` with `+` registered as a built-in leaves the operator
symbol `+` with id 0. -/
theorem builtin_symbols_keep_id_zero :
    (∀ (s : RState) (sym : Symbol),
        lookupRev (s.tables.take s.pos).reverse sym = none → scopeRename s sym = sym) ∧
    binOpId (renamePass ["+"] exC6) = some 0 := by
  constructor
  · intro s sym h
    unfold scopeRename
    rw [h]
  · rfl

/-- Claim C6, witness: the miss-preservation part applied at a concrete
state and symbol. -/
theorem builtin_symbols_keep_id_zero_witness :
    scopeRename ⟨[[]], 1, 5⟩ ⟨"+", 0⟩ = ⟨"+", 0⟩ :=
  builtin_symbols_keep_id_zero.1 ⟨[[]], 1, 5⟩ ⟨"+", 0⟩ rfl

end Ast

namespace Hir

/-- Claim C1, counterexample: flattening the HIR of
`val z = f (let val a = 1 in a end) (let val b = 2 in b end)` returns the
program unchanged — the two `Binds` remain direct children of `App` nodes
(the shape checker reports a violation) and the top level still has its
single binding `z` instead of the claimed three bindings `a`, `b`, `z`. -/
theorem flatlet_scenario_counterexample :
    flatHir exC1 = exC1 ∧
    flatOkHir (flatHir exC1) = false ∧
    (flatHir exC1).vals.length = 1 :=
  ⟨rfl, rfl, rfl⟩

/-- Claim C1, amended: the let-flattening pass hoists bindings only into
an enclosing `Binds` expression; at `App`, `Fun` and `If` nodes
`flat_expr` merely rebuilds the node around the flattened children, and
`flat_hir` changes each top-level binding only through `flat_expr` — so a
top-level binding whose expression is not a `Binds` (such as the
application scenario) keeps its nested `let`s in place and the program is
returned unchanged. -/
theorem flatlet_hoists_only_into_binds :
    (∀ (ty : TyDefer) (fn arg : Expr),
        flatExpr (.App ty fn arg) = .App ty (flatExpr fn) (flatExpr arg)) ∧
    (∀ (ty : TyDefer) (param : Symbol) (body : Expr),
        flatExpr (.Fun ty param body) = .Fun ty param (flatExpr body)) ∧
    (∀ (ty : TyDefer) (c t e : Expr),
        flatExpr (.If ty c t e) = .If ty (flatExpr c) (flatExpr t) (flatExpr e)) ∧
    flatHir exC1 = exC1 :=
  ⟨fun _ _ _ => rfl, fun _ _ _ => rfl, fun _ _ _ _ => rfl, rfl⟩

/-- Claim C3, counterexample: `flat_expr` applies `take_binds` to the
*unflattened* body, so on `exC3` (an empty `Binds` whose body is a `let`
hiding a deeper `let` under an `App`) the result keeps a single hoisted
binding and an un-flattened body in which an `App` still has a `Binds`
child, whereas the claim's `take_binds(flat_expr(body))` recipe would
hoist two bindings; the two results differ. -/
theorem binds_body_take_counterexample :
    topBindsLen (flatExpr exC3) = 1 ∧
    topBindsLen (flatExprClaimed 20 [] retC3) = 2 ∧
    flatOk (flatExpr exC3) = false ∧
    flatExpr exC3 ≠ flatExprClaimed 20 [] retC3 :=
  ⟨rfl, rfl, rfl, fun h => absurd (congrArg topBindsLen h) (by decide)⟩

/-- Claim C3, amended: in `flat_expr`'s `Binds` arm the recursive
flattening is applied to each binding's expression but *not* to the body:
the resulting body and the trailing appended bindings equal
`take_binds(body)` applied to the original body directly, while each
binding contributes `take_binds(flat_expr(bind.expr))` as the claim
states. -/
theorem binds_body_taken_unflattened :
    (∀ (ty : TyDefer) (binds : List Val) (ret : Expr),
        flatExpr (.Binds ty binds ret) =
          .Binds ty (flatBinds binds ++ (takeBinds ret).2) (takeBinds ret).1) ∧
    (∀ binds : List Val,
        flatBinds binds = binds.flatMap fun v =>
          (takeBinds (flatExpr v.expr)).2
            ++ [{ v with expr := (takeBinds (flatExpr v.expr)).1 }]) := by
  constructor
  · intro ty binds ret
    rfl
  · intro binds
    induction binds with
    | nil => rfl
    | cons v vs ih => simp [flatBinds, ih]

/-- Claim C7: `take_binds` on an `If` extracts bindings only from the
condition and returns the branches untouched, and flattening the HIR of
`val z = if c then (let val a = 1 in a end) else 0` preserves the `let`
inside the `then` branch — the program comes back unchanged, with no `a`
binding hoisted to any enclosing scope. -/
theorem if_branches_not_hoisted :
    (∀ (ty : TyDefer) (c t e : Expr),
        takeBinds (.If ty c t e) = (.If ty (takeBinds c).1 t e, (takeBinds c).2)) ∧
    flatHir exC7 = exC7 :=
  ⟨fun _ _ _ _ => rfl, rfl⟩

/-- Claim C10: the let-flattening pass maps each top-level binding to
exactly one top-level binding with the same pattern, `rec` flag and type
slot, changing only its expression (to its `flat_expr`); the number and
order of top-level bindings are preserved, and no binding is introduced,
removed, or hoisted into the top-level list. -/
theorem flatlet_preserves_toplevel_bindings (p : HIR) :
    (flatHir p).vals.length = p.vals.length ∧
    ∀ i : Nat,
      ((flatHir p).vals[i]?.map GVal.pattern = p.vals[i]?.map GVal.pattern) ∧
      ((flatHir p).vals[i]?.map GVal.isRec = p.vals[i]?.map GVal.isRec) ∧
      ((flatHir p).vals[i]?.map GVal.ty = p.vals[i]?.map GVal.ty) ∧
      ((flatHir p).vals[i]?.map GVal.expr = p.vals[i]?.map fun v => flatExpr v.expr) := by
  refine ⟨by simp [flatHir], fun i => ?_⟩
  simp only [flatHir, List.getElem?_map]
  cases p.vals[i]? with
  | none => simp
  | some v => simp [flatVal]

end Hir

namespace Parse

/-- Claim C8: the `symbol` parser never yields a reserved word (stated as
a run-time check over every input, with no hypothesis); concretely,
`val val = 1` is rejected with a parse error while the well-formed
`val vall = 1` parses, showing the rejection is due to the reserved
word. -/
theorem reserved_words_not_symbols :
    (∀ inp : List Char, resIsReserved (symbol inp) = false) ∧
    parse "val val = 1" = .fail ∧
    parse "val vall = 1" = .done [] [⟨false, "vall", .Lit (.Int 1)⟩] := by
  refine ⟨?_, rfl, rfl⟩
  intro inp
  simp only [symbol, resIsReserved]
  cases h : alphanumeric inp with
  | done rest s =>
      by_cases hc : String.mk s ∈ reservedWords
      · simp [hc]
      · simp [hc]
  | fail => rfl
  | panic => rfl

/-- Claim C9: the parser builds `+` right-associatively, `*`
right-associatively, and application left-associatively:
`1 + 2 + 3` parses as `Add(1, Add(2, 3))`, `2 * 3 * 4` parses as
`Mul(2, Mul(3, 4))`, and `f a b` parses as `App(App(f, a), b)`. -/
theorem operator_associativity :
    parseExpr "1 + 2 + 3" =
      .done [] (.Add (.Lit (.Int 1)) (.Add (.Lit (.Int 2)) (.Lit (.Int 3)))) ∧
    parseExpr "2 * 3 * 4" =
      .done [] (.Mul (.Lit (.Int 2)) (.Mul (.Lit (.Int 3)) (.Lit (.Int 4)))) ∧
    parseExpr "f a b" =
      .done [] (.App (.App (.Sym "f") (.Sym "a")) (.Sym "b")) :=
  ⟨rfl, rfl, rfl⟩

/-- Claim C4: contrary to the spec's no-panic guarantee, parsing the
well-formed input `val x = 99999999999999999999` (whose integer literal
exceeds `i64`) reaches the `.expect` in `expr0_int` and panics instead of
returning an AST or a `ParseError`; an in-range literal such as
`val x = 1` parses normally. -/
theorem int_overflow_panics :
    parse "val x = 99999999999999999999" = .panic ∧
    parse "val x = 1" = .done [] [⟨false, "x", .Lit (.Int 1)⟩] :=
  ⟨rfl, rfl⟩

end Parse

namespace Ast

/-- Claim C5, witness: the uniqueness theorem applied to the concrete
program `exC2` with no built-ins, discharging the membership hypothesis at
the binder id 1. -/
theorem rename_binder_ids_unique_nonzero_witness : (1 : Nat) ≠ 0 :=
  (rename_binder_ids_unique_nonzero [] exC2).1 1 (by decide)

end Ast
